import Mathlib

/-!
Verification of the runbot_merge staging/batch core
(`runbot_merge/models/pull_requests.py`).

The Python model classes are shallowly embedded: each relevant method is
translated into a pure Lean function over an explicit record of the fields
it reads and writes.  CI contexts are `String`s, record ids (partners,
batches, repositories) are `Nat`s, JSON status maps become functions
`String → Option CiState` where only the `state` member of each status
value matters to the translated code.
-/

/-- A raw CI status state as delivered per commit and context
(`pending`, `success`, `failure`, `error`). -/
inductive CiState
  | pending
  | success
  | failure
  | error
deriving DecidableEq, Repr

/-- The aggregate computed by `PullRequests._compute_statuses` and
`Stagings._validate`: only `success`, `pending` or `failure`. -/
inductive CiAgg
  | success
  | pending
  | failure
deriving DecidableEq, Repr

/-- The pull-request state machine states of `PullRequests.state`. -/
inductive PrState
  | opened
  | approved
  | validated
  | ready
  | merged
  | error
  | closed
deriving DecidableEq, Repr

/-- The fields read by `PullRequests._compute_state` (lines 932-949):
the batch's `merge_date` and `skipchecks`, the PR's `closed` and `error`
flags, whether `reviewed_by` is set, and the aggregate `status`. -/
structure PrStateInputs where
  batch_merge_date : Option Nat
  closed : Bool
  error : Bool
  batch_skipchecks : Bool
  reviewed_by : Bool
  status : CiAgg
deriving DecidableEq, Repr

/-- The tuple `states = ("opened", "approved", "validated", "ready")`
indexed in `_compute_state`. -/
def stateTable : List PrState := [.opened, .approved, .validated, .ready]

/-- `PullRequests._compute_state`: priority chain over merge_date, closed,
error, skipchecks, then a table lookup at index
`bool(reviewed_by) | ((status == "success") << 1)`. -/
def computeState (pr : PrStateInputs) : PrState :=
  if pr.batch_merge_date.isSome then .merged
  else if pr.closed then .closed
  else if pr.error then .error
  else if pr.batch_skipchecks then .ready
  else stateTable.getD
    ((cond pr.reviewed_by 1 0) ||| ((cond (pr.status == .success) 1 0) <<< 1))
    .opened

/-- The state machine as the specification words it: the same priority
chain, then the table (no,no)->opened, (no,yes)->validated,
(yes,no)->approved, (yes,yes)->ready over (has reviewer, status == success). -/
def specState (pr : PrStateInputs) : PrState :=
  if pr.batch_merge_date.isSome then .merged
  else if pr.closed then .closed
  else if pr.error then .error
  else if pr.batch_skipchecks then .ready
  else
    match pr.reviewed_by, pr.status == .success with
    | false, false => .opened
    | false, true => .validated
    | true, false => .approved
    | true, true => .ready

/-- C1: the computed PR state follows the priority chain
merged > closed > error > skipchecks-ready, and otherwise the
(reviewer, success) table with (no,no)->opened, (no,yes)->validated,
(yes,no)->approved, (yes,yes)->ready. -/
theorem state_machine_matches_spec (pr : PrStateInputs) :
    computeState pr = specState pr := by
  rcases pr with ⟨md, c, e, sk, rv, st⟩
  cases md <;> cases c <;> cases e <;> cases sk <;> cases rv <;> cases st <;> rfl

/-- `PullRequests._get_overrides` (lines 550-555): the override maps of the
ancestor chain, self first.  The self map wins over the parent's result,
which recursively is the grandparent's result under the parent's map. -/
def getOverrides : List (String → Option CiState) → String → Option CiState
  | [], _ => none
  | o :: ancestors, c => (o c).orElse fun _ => getOverrides ancestors c

/-- The merged status map of `_compute_statuses` line 917:
`{**json.loads(pr.statuses), **pr._get_overrides()}` — the override map is
laid over the raw per-commit map, overrides winning per context. -/
def mergedStatuses (chain : List (String → Option CiState))
    (raw : String → Option CiState) : String → Option CiState :=
  fun c => (getOverrides chain c).orElse fun _ => raw c

/-- The loop body of `_compute_statuses` lines 921-929: scan the required
contexts; `error`/`failure` breaks with `failure`, a missing or `pending`
context demotes the accumulator to `pending`. -/
def statusLoop (m : String → Option CiState) : List String → CiAgg → CiAgg
  | [], st => st
  | ci :: rest, st =>
    match (m ci).getD .pending with
    | .error => .failure
    | .failure => .failure
    | .pending => statusLoop m rest .pending
    | .success => statusLoop m rest st

/-- `PullRequests._compute_statuses` aggregate: the loop started at
`success` over the PR-scoped required contexts. -/
def computeStatus (required : List String) (m : String → Option CiState) : CiAgg :=
  statusLoop m required .success

/-- Whether a status state counts as failing for the aggregate. -/
def ciFails (v : CiState) : Bool := v == .error || v == .failure

/-- The aggregate rule as the specification words it: `failure` as soon as
any required context is `error`/`failure`, else `pending` if any required
context is missing or `pending`, else `success`. -/
def specAggregate (required : List String) (m : String → Option CiState) : CiAgg :=
  if required.any fun c => ciFails ((m c).getD .pending) then .failure
  else if required.any fun c => (m c).getD .pending == .pending then .pending
  else .success

theorem statusLoop_pending_eq (m : String → Option CiState) (l : List String) :
    statusLoop m l .pending =
      if l.any (fun c => ciFails ((m c).getD .pending)) then .failure else .pending := by
  induction l with
  | nil => simp [statusLoop]
  | cons c rest ih =>
    cases h : (m c).getD .pending <;>
      simp [statusLoop, List.any_cons, ciFails, h, ih]

theorem statusLoop_success_eq (m : String → Option CiState) (l : List String) :
    statusLoop m l .success = specAggregate l m := by
  induction l with
  | nil => simp [statusLoop, specAggregate]
  | cons c rest ih =>
    cases h : (m c).getD .pending <;>
      simp [statusLoop, List.any_cons, ciFails, h, ih, statusLoop_pending_eq,
        specAggregate]

/-- C2: the composite status merges the raw CI map with the inherited
override map (overrides win, self's override beating any ancestor's for
the same context), and the aggregate over required contexts is `failure`
as soon as any required context is `error`/`failure`, else `pending` on
any missing/`pending` context, else `success`. -/
theorem composite_status_aggregation
    (chain : List (String → Option CiState)) (raw : String → Option CiState)
    (required : List String) :
    computeStatus required (mergedStatuses chain raw)
        = specAggregate required (mergedStatuses chain raw)
      ∧ (∀ c v, getOverrides chain c = some v → mergedStatuses chain raw c = some v)
      ∧ (∀ o ancestors c v, o c = some v → getOverrides (o :: ancestors) c = some v) := by
  refine ⟨statusLoop_success_eq _ _, ?_, ?_⟩
  · intro c v h
    simp [mergedStatuses, h, Option.orElse]
  · intro o ancestors c v h
    simp [getOverrides, h, Option.orElse]

/-- Example override and raw status maps for exercising the status
aggregation at concrete inputs. -/
def ovSelf : String → Option CiState := fun c => if c = "ci" then some .success else none

def rawCi : String → Option CiState := fun c => if c = "ci" then some .failure else none

theorem composite_status_aggregation_witness :
    computeStatus ["ci"] (mergedStatuses [ovSelf] rawCi)
        = specAggregate ["ci"] (mergedStatuses [ovSelf] rawCi)
      ∧ mergedStatuses [ovSelf] rawCi "ci" = some .success
      ∧ getOverrides [ovSelf, rawCi] "ci" = some .success := by
  obtain ⟨h1, h2, h3⟩ := composite_status_aggregation [ovSelf] rawCi ["ci"]
  exact ⟨h1, h2 "ci" .success (by decide), h3 ovSelf [rawCi] "ci" .success (by decide)⟩

/-- The `merge_method` selection values of the `PullRequests` model
(`merge`, `rebase-merge`, `rebase-ff`, `squash`). -/
inductive MergeMethod
  | merge
  | rebaseMerge
  | rebaseFF
  | squash
deriving DecidableEq, Repr

/-- The PR fields touched by the squash clause of `PullRequests.write`:
the `squash` flag and the chosen `merge_method` (`none` = no method). -/
structure PrWriteFields where
  squash : Bool
  merge_method : Option MergeMethod
deriving DecidableEq, Repr

/-- A `vals` dictionary for `PullRequests.write` restricted to those two
fields: an outer `none` means the key is absent from `vals`. -/
structure WriteVals where
  squash : Option Bool
  merge_method : Option (Option MergeMethod)
deriving DecidableEq, Repr

/-- `PullRequests.write` (lines 1081-1083) on those fields: if `vals`
carries a truthy `squash`, `vals['merge_method']` is forced to `False`
before the ORM applies every key of `vals` to the record. -/
def prWrite (pr : PrWriteFields) (vals : WriteVals) : PrWriteFields :=
  let vals :=
    if vals.squash.getD false then { vals with merge_method := some none } else vals
  { squash := vals.squash.getD pr.squash,
    merge_method := vals.merge_method.getD pr.merge_method }

/-- C9: a write whose `vals` set `squash` to true clears the merge method
in the same write, whatever method was previously chosen. -/
theorem write_squash_clears_merge_method (pr : PrWriteFields) (vals : WriteVals)
    (h : vals.squash = some true) :
    (prWrite pr vals).merge_method = none ∧ (prWrite pr vals).squash = true := by
  simp [prWrite, h]

theorem write_squash_clears_merge_method_witness :
    (prWrite ⟨false, some .merge⟩ ⟨some true, none⟩).merge_method = none
      ∧ (prWrite ⟨false, some .merge⟩ ⟨some true, none⟩).squash = true :=
  write_squash_clears_merge_method ⟨false, some .merge⟩ ⟨some true, none⟩ rfl

/-- The `Stagings.state` selection values. -/
inductive StagingState
  | pending
  | success
  | failure
  | cancelled
  | ff_failed
deriving DecidableEq, Repr

/-- The staging fields touched by `Stagings.cancel`: the `active` flag,
the `state` and the `reason`. -/
structure StagingCancelFields where
  active : Bool
  state : StagingState
  reason : Option String
deriving DecidableEq, Repr

/-- `Stagings.cancel` (lines 1707-1718): `self = self.filtered('active')`;
an inactive staging yields an empty recordset and the method returns
`False` without writing; otherwise it writes
`active=False, state='cancelled', reason=reason % args` and returns `True`. -/
def stagingCancel (s : StagingCancelFields) (reason : String) :
    StagingCancelFields × Bool :=
  if s.active then ({ active := false, state := .cancelled, reason := some reason }, true)
  else (s, false)

/-- C10: cancelling an inactive staging returns `False` and leaves state,
reason and the active flag unchanged. -/
theorem cancel_inactive_staging_noop (s : StagingCancelFields) (reason : String)
    (h : s.active = false) :
    stagingCancel s reason = (s, false) := by
  simp [stagingCancel, h]

theorem cancel_inactive_staging_noop_witness :
    stagingCancel ⟨false, .ff_failed, some "boom"⟩ "why" = (⟨false, .ff_failed, some "boom"⟩, false) :=
  cancel_inactive_staging_noop ⟨false, .ff_failed, some "boom"⟩ "why" rfl

/-- The staging fields read and written by `Stagings.try_splitting`:
the ordered list of batch ids, the aggregate `state`, the `active` flag
and the `reason`. -/
structure StagingSplitFields where
  batch_ids : List Nat
  state : StagingState
  active : Bool
  reason : Option String
deriving DecidableEq, Repr

/-- A `runbot_merge.split` record: a target branch and the ordered batch
ids linked into it. -/
structure SplitRec where
  target : Nat
  batch_ids : List Nat
deriving DecidableEq, Repr

/-- `Stagings.try_splitting` (lines 1740-1761): with more than one batch,
bisect the ordered batch list at `len // 2`, create two `split` records
over the two halves, deactivate the staging with state `failure` (keeping
the reason when already failed, else `timed out`) and return `True`.
With a single batch the method falls through to `Stagings.fail`, which
deactivates the staging with state `failure` and a diagnosis message
(timeout text or the first failing required context) and returns `False`,
creating no split. -/
def trySplitting (s : StagingSplitFields) (target : Nat) (diagnosis : String) :
    StagingSplitFields × List SplitRec × Bool :=
  let batches := s.batch_ids.length
  if batches > 1 then
    let midpoint := batches / 2
    let h := s.batch_ids.take midpoint
    let t := s.batch_ids.drop midpoint
    ({ s with
       active := false
       state := .failure
       reason := if s.state == .failure then s.reason else some "timed out" },
     [⟨target, h⟩, ⟨target, t⟩], true)
  else
    ({ s with active := false, state := .failure, reason := some diagnosis },
     [], false)

/-- C7: splitting a staging with more than one batch produces exactly two
split records whose batch lists concatenate, in order, to the original
ordered batch list (first half of length `n / 2`), and deactivates the
staging with state `failure`. -/
theorem splitting_bisects_preserving_order (s : StagingSplitFields)
    (target : Nat) (diagnosis : String) (h : s.batch_ids.length > 1) :
    (trySplitting s target diagnosis).2.1.length = 2
      ∧ ((trySplitting s target diagnosis).2.1.map SplitRec.batch_ids).flatten = s.batch_ids
      ∧ ((trySplitting s target diagnosis).2.1.getD 0 ⟨target, []⟩).batch_ids.length
          = s.batch_ids.length / 2
      ∧ (trySplitting s target diagnosis).1.active = false
      ∧ (trySplitting s target diagnosis).1.state = .failure
      ∧ (trySplitting s target diagnosis).2.2 = true := by
  simp only [trySplitting, if_pos h]
  refine ⟨by simp, ?_, ?_, by simp, by simp, by simp⟩
  · simp [List.take_append_drop]
  · simp [List.length_take, Nat.min_eq_left (Nat.div_le_self _ _)]

theorem splitting_bisects_preserving_order_witness :
    (trySplitting ⟨[1, 2, 3, 4], .pending, true, none⟩ 7 "d").2.1.length = 2
      ∧ ((trySplitting ⟨[1, 2, 3, 4], .pending, true, none⟩ 7 "d").2.1.map
          SplitRec.batch_ids).flatten = [1, 2, 3, 4]
      ∧ ((trySplitting ⟨[1, 2, 3, 4], .pending, true, none⟩ 7 "d").2.1.getD 0
          ⟨7, []⟩).batch_ids.length = 4 / 2
      ∧ (trySplitting ⟨[1, 2, 3, 4], .pending, true, none⟩ 7 "d").1.active = false
      ∧ (trySplitting ⟨[1, 2, 3, 4], .pending, true, none⟩ 7 "d").1.state = .failure
      ∧ (trySplitting ⟨[1, 2, 3, 4], .pending, true, none⟩ 7 "d").2.2 = true :=
  splitting_bisects_preserving_order ⟨[1, 2, 3, 4], .pending, true, none⟩ 7 "d"
    (by decide)

/-- One iteration of the inner loop of `Stagings._validate`
(lines 1676-1685) on the accumulator `(st, update_timeout_limit)` and the
looked-up state `v` of one required context: `failure` is sticky and also
entered on `error`/`failure`, a missing context demotes to `pending`, and
an explicit `pending` demotes to `pending` and requests a timeout bump. -/
def validateStep : CiAgg × Bool → Option CiState → CiAgg × Bool
  | (st, upd), v =>
    if st == .failure || v == some .error || v == some .failure then (.failure, upd)
    else
      match v with
      | none => (.pending, upd)
      | some .pending => (.pending, true)
      | _ => (st, upd)

/-- The sequence of looked-up states scanned by `_validate`: for each head
`(commit, required contexts)` in order, the state of each required context
in the commit's status map (`cmap.get(head) or {}` makes every lookup on
an unknown commit miss). -/
def requiredValues (heads : List (Nat × List String))
    (cmap : Nat → Option (String → Option CiState)) : List (Option CiState) :=
  (heads.map fun hr => hr.2.map fun n => ((cmap hr.1).getD fun _ => none) n).flatten

/-- The aggregate string written to `Stagings.state` by `_validate`. -/
def aggToStaging : CiAgg → StagingState
  | .success => .success
  | .pending => .pending
  | .failure => .failure

/-- The staging fields read and written by `Stagings._validate`. -/
structure StagingValidateFields where
  state : StagingState
  timeout_limit : Nat
deriving DecidableEq, Repr

/-- `Stagings._validate` (lines 1660-1692) for one staging: skip unless
`pending`; scan every head's required contexts accumulating the aggregate
and the `update_timeout_limit` flag; write the new state, and the timeout
limit `now + ci_timeout` only when the flag was raised. -/
def stagingValidate (s : StagingValidateFields) (heads : List (Nat × List String))
    (cmap : Nat → Option (String → Option CiState)) (now tmo : Nat) :
    StagingValidateFields :=
  if s.state ≠ .pending then s
  else
    let res := (requiredValues heads cmap).foldl validateStep (.success, false)
    { state := aggToStaging res.1
      timeout_limit := if res.2 then now + tmo else s.timeout_limit }

/-- A commit status map whose context `a` failed and whose context `b` is
pending, exercising the scan order of `_validate`. -/
def cmapFailThenPending : Nat → Option (String → Option CiState) :=
  fun h =>
    if h = 0 then
      some fun c =>
        if c = "a" then some .failure else if c = "b" then some .pending else none
    else none

/-- C6 counterexample: on a pending staging whose single head has required
contexts `[a, b]` with `a` in `failure` and `b` observed `pending`, the
pass does not re-arm the timeout deadline: the deadline stays at its old
value instead of `now + ci_timeout`, although a required context was
observed `pending`. -/
theorem timeout_rearm_counterexample :
    (requiredValues [(0, ["a", "b"])] cmapFailThenPending).contains (some .pending) = true
      ∧ (stagingValidate ⟨.pending, 100⟩ [(0, ["a", "b"])] cmapFailThenPending 50 30).timeout_limit
          = 100
      ∧ 100 ≠ 50 + 30 := by decide

/-- Whether the scanned sequence of required-context states raises
`update_timeout_limit`: the scan hits an explicit `pending` before any
`error`/`failure` (after which `failure` is sticky and nothing re-arms). -/
def rearms : List (Option CiState) → Bool
  | [] => false
  | some .error :: _ => false
  | some .failure :: _ => false
  | some .pending :: _ => true
  | _ :: rest => rearms rest

theorem foldl_validateStep_snd (vs : List (Option CiState)) :
    ∀ st upd, ((vs.foldl validateStep (st, upd)).2
      = (upd || (st != .failure && rearms vs))) := by
  induction vs with
  | nil => intro st upd; simp [rearms]
  | cons v rest ih =>
    intro st upd
    rcases v with _ | cv
    · cases st <;> simp [validateStep, rearms, ih]
      rfl
    · cases cv <;> cases st <;> simp [validateStep, rearms, ih]

/-- C6 amended: on a pending staging, the timeout deadline is re-armed to
`now + ci_timeout` (exactly once per validation pass) precisely when some
required context is observed `pending` before any `error`/`failure` in
the scan; otherwise — no pending at all, or a pending only after a
context in `error`/`failure` — the deadline is left unchanged, and an
`error`/`failure` context by itself never re-arms it. -/
theorem timeout_rearm_amended (s : StagingValidateFields)
    (heads : List (Nat × List String))
    (cmap : Nat → Option (String → Option CiState)) (now tmo : Nat)
    (h : s.state = .pending) :
    (stagingValidate s heads cmap now tmo).timeout_limit
      = if rearms (requiredValues heads cmap) then now + tmo else s.timeout_limit := by
  simp only [stagingValidate, h]
  rw [if_neg (by simp)]
  simp [foldl_validateStep_snd]

/-- A commit status map whose single required context is pending. -/
def cmapPending : Nat → Option (String → Option CiState) :=
  fun h => if h = 0 then some fun c => if c = "a" then some .pending else none else none

theorem timeout_rearm_amended_witness :
    (stagingValidate ⟨.pending, 100⟩ [(0, ["a"])] cmapPending 50 30).timeout_limit
      = if rearms (requiredValues [(0, ["a"])] cmapPending) then 50 + 30 else 100 :=
  timeout_rearm_amended ⟨.pending, 100⟩ [(0, ["a"])] cmapPending 50 30 rfl

/-- The backoff pause sequence of `Stagings._safety_dance` line 1903,
in tenths of a second: `[0.1, 0.3, 0.5, 0.9, 0]`.  The last entry is
falsy so that the final failure is raised instead of swallowed. -/
def pauses : List Nat := [1, 3, 5, 9, 0]

/-- The retry loop of `_safety_dance` lines 1903-1916 for one repository.
`ff a` is the outcome of the fast-forward call on attempt `a`, `i` the
position of the repository in the staging-commit enumeration.  Returns
whether the loop ended without raising, and the number of attempts made:
on an exception the loop continues only when `i` is truthy (not the first
repository) and the pause is truthy (not the last attempt). -/
def ffLoop (ff : Nat → Bool) (i : Nat) : List Nat → Nat → Bool × Nat
  | [], attempts => (true, attempts)
  | pause :: rest, attempts =>
    if ff attempts then (true, attempts + 1)
    else if i ≠ 0 ∧ pause ≠ 0 then ffLoop ff i rest (attempts + 1)
    else (false, attempts + 1)

/-- The real-branch phase of `_safety_dance` (the `enumerate` loop): each
staging commit in order runs `ffLoop` at its position; a raised failure
stops the enumeration, so later repositories are not fast-forwarded.
Returns the repositories whose real branch was updated (in order), the
`(repository, attempts)` log, and whether the phase completed without
raising. -/
def realPhase (ff : Nat → Nat → Bool) :
    Nat → List Nat → List Nat × List (Nat × Nat) × Bool
  | _, [] => ([], [], true)
  | i, r :: rest =>
    match ffLoop (ff r) i pauses 0 with
    | (true, k) =>
      match realPhase ff (i + 1) rest with
      | (upd, att, ok) => (r :: upd, (r, k) :: att, ok)
    | (false, k) => ([], [(r, k)], false)

/-- The dry-run phase of `_safety_dance` lines 1899-1901: fast-forward
each temporary ref to its staging commit; the first exception propagates
out of the loop. -/
def dryRun (ffTmp : Nat → Bool) : List Nat → Bool
  | [] => true
  | r :: rest => ffTmp r && dryRun ffTmp rest

/-- What a `_safety_dance` run did: whether a `FastForwardError`
propagated to the caller, which real target branches were fast-forwarded
(in order), and how many real fast-forward attempts each processed
repository received. -/
structure DanceOutcome where
  raised : Bool
  updated : List Nat
  attempts : List (Nat × Nat)
deriving DecidableEq, Repr

/-- `Stagings._safety_dance` (lines 1875-1916): force-push the current
targets to the temporary refs (touching no real branch), dry-run
fast-forward every temporary ref — any failure there propagates before
any real branch is touched — and only then fast-forward the real target
branches one repository at a time with the retry loop. -/
def safetyDance (ffTmp : Nat → Bool) (ffReal : Nat → Nat → Bool)
    (repos : List Nat) : DanceOutcome :=
  if dryRun ffTmp repos then
    match realPhase ffReal 0 repos with
    | (upd, att, ok) => ⟨!ok, upd, att⟩
  else ⟨true, [], []⟩

/-- The staging fields written by the success branch of
`Stagings.check_status` (lines 1816-1868): on a propagated
`FastForwardError` the staging gets `state='ff_failed'`, on success the
batches are stamped with `merge_date`; either way the `finally` clause
clears `active`.  The failure/timeout branch (`try_splitting`) is
modelled by `trySplitting`. -/
structure StagingCheckFields where
  active : Bool
  state : StagingState
  merge_date_set : Bool
deriving DecidableEq, Repr

/-- The success branch of `Stagings.check_status` around `_safety_dance`. -/
def checkStatus (s : StagingCheckFields) (outcome : DanceOutcome) :
    StagingCheckFields :=
  if !s.active then s
  else if s.state == .success then
    if outcome.raised then { s with state := .ff_failed, active := false }
    else { s with merge_date_set := true, active := false }
  else s

theorem dryRun_eq_all (ffTmp : Nat → Bool) (repos : List Nat) :
    dryRun ffTmp repos = repos.all ffTmp := by
  induction repos with
  | nil => rfl
  | cons r rest ih => simp [dryRun, List.all_cons, ih]

/-- C3: if any dry-run fast-forward of a temporary ref fails, the whole
merge attempt aborts with a fast-forward error before any real target
branch is fast-forwarded (no real branch updated, no real attempt made),
and the staging ends deactivated in state `ff_failed` without its batches
being stamped merged. -/
theorem dry_run_failure_aborts (ffTmp : Nat → Bool) (ffReal : Nat → Nat → Bool)
    (repos : List Nat) (s : StagingCheckFields)
    (ha : s.active = true) (hs : s.state = .success)
    (hf : ∃ r ∈ repos, ffTmp r = false) :
    safetyDance ffTmp ffReal repos = ⟨true, [], []⟩
      ∧ (checkStatus s (safetyDance ffTmp ffReal repos)).state = .ff_failed
      ∧ (checkStatus s (safetyDance ffTmp ffReal repos)).active = false
      ∧ (checkStatus s (safetyDance ffTmp ffReal repos)).merge_date_set
          = s.merge_date_set := by
  obtain ⟨r, hr, hfr⟩ := hf
  have hd : dryRun ffTmp repos = false := by
    rw [dryRun_eq_all]
    simp only [List.all_eq_false]
    exact ⟨r, hr, by simp [hfr]⟩
  have hsd : safetyDance ffTmp ffReal repos = ⟨true, [], []⟩ := by
    simp [safetyDance, hd]
  refine ⟨hsd, ?_, ?_, ?_⟩ <;> simp [hsd, checkStatus, ha, hs]

theorem dry_run_failure_aborts_witness :
    safetyDance (fun r => decide (r ≠ 20)) (fun _ _ => true) [10, 20]
        = ⟨true, [], []⟩
      ∧ (checkStatus ⟨true, .success, false⟩
          (safetyDance (fun r => decide (r ≠ 20)) (fun _ _ => true) [10, 20])).state
          = .ff_failed
      ∧ (checkStatus ⟨true, .success, false⟩
          (safetyDance (fun r => decide (r ≠ 20)) (fun _ _ => true) [10, 20])).active
          = false
      ∧ (checkStatus ⟨true, .success, false⟩
          (safetyDance (fun r => decide (r ≠ 20)) (fun _ _ => true) [10, 20])).merge_date_set
          = false :=
  dry_run_failure_aborts (fun r => decide (r ≠ 20)) (fun _ _ => true) [10, 20]
    ⟨true, .success, false⟩ rfl rfl ⟨20, by decide, by decide⟩

/-- A real-branch fast-forward behaviour that fails on the first attempt
and would succeed on any retry. -/
def ffFlaky : Nat → Nat → Bool := fun _ k => decide (k ≠ 0)

/-- C4 counterexample: with two repositories whose dry run passes and
whose first repository's real fast-forward fails once and would succeed
on a retry, `_safety_dance` raises after a single attempt on the first
repository — the first repository is not retried, so the transient
failure is not absorbed even though a second attempt would have
succeeded. -/
theorem first_repo_not_retried_counterexample :
    ffFlaky 10 1 = true
      ∧ safetyDance (fun _ => true) ffFlaky [10, 20] = ⟨true, [], [(10, 1)]⟩ := by
  decide

theorem ffLoop_attempts_le (f : Nat → Bool) (i : Nat) :
    ∀ (l : List Nat) (a : Nat), (ffLoop f i l a).2 ≤ a + l.length := by
  intro l
  induction l with
  | nil => intro a; simp [ffLoop]
  | cons p rest ih =>
    intro a
    simp only [ffLoop, List.length_cons]
    split
    · omega
    · split
      · have := ih (a + 1)
        omega
      · omega

/-- C4 amended: in the real-branch phase, a repository other than the
first is retried with the fixed sub-second backoff sequence up to five
attempts, and when all five fail the final failure is raised — recorded
as such, updating no branch and aborting the remaining repositories —
while the first repository's fast-forward is never retried: its first
failure is raised immediately after a single attempt; every repository's
loop makes at most five attempts. -/
theorem real_phase_retry_policy (ff : Nat → Nat → Bool) (i r : Nat)
    (rest : List Nat) :
    (i ≠ 0 → (∀ k, k < 5 → ff r k = false) →
        realPhase ff i (r :: rest) = ([], [(r, 5)], false))
      ∧ (ff r 0 = false → realPhase ff 0 (r :: rest) = ([], [(r, 1)], false))
      ∧ (ffLoop (ff r) i pauses 0).2 ≤ 5 := by
  refine ⟨?_, ?_, ?_⟩
  · intro hi hall
    have h0 := hall 0 (by norm_num)
    have h1 := hall 1 (by norm_num)
    have h2 := hall 2 (by norm_num)
    have h3 := hall 3 (by norm_num)
    have h4 := hall 4 (by norm_num)
    simp [realPhase, ffLoop, pauses, h0, h1, h2, h3, h4, hi]
  · intro h0
    simp [realPhase, ffLoop, pauses, h0]
  · simpa using ffLoop_attempts_le (ff r) i pauses 0

theorem real_phase_retry_policy_witness :
    realPhase (fun _ _ => false) 1 [10, 20] = ([], [(10, 5)], false)
      ∧ realPhase (fun _ _ => false) 0 [10, 20] = ([], [(10, 1)], false) := by
  obtain ⟨h1, h2, _⟩ := real_phase_retry_policy (fun _ _ => false) 1 10 [20]
  exact ⟨h1 (by norm_num) (fun k _ => rfl), h2 rfl⟩

/-- `k` steps along the forward-port child links: `child pr` is the PR
found by `_iter_descendants`'s `search([('parent_id', '=', pr.id)])`
(the chain has at most one child per PR). -/
def chainStep (child : Nat → Option Nat) : Nat → Nat → Option Nat
  | 0, pr => some pr
  | k + 1, pr =>
    match child pr with
    | none => none
    | some c => chainStep child k c

/-- `PullRequests._iter_descendants` (lines 596-599): repeatedly search
for the PR whose parent is the current one, yielding each child in chain
order.  `fuel` bounds the walk so the embedding is total. -/
def iterDescendants (child : Nat → Option Nat) : Nat → Nat → List Nat
  | 0, _ => []
  | fuel + 1, pr =>
    match child pr with
    | none => []
    | some c => c :: iterDescendants child fuel c

/-- `PullRequests.modified` (lines 895-908) when `overrides` is among the
modified fields: the records whose `status`, `statuses_full` and `state`
are queued for recomputation are `self.concat(*self._iter_descendants())`
— the PR itself followed by its chain of descendants. -/
def overridesRecomputeSet (child : Nat → Option Nat) (fuel pr : Nat) : List Nat :=
  pr :: iterDescendants child fuel pr

theorem chainStep_add (child : Nat → Option Nat) :
    ∀ (j k a : Nat), chainStep child (j + k) a
      = (chainStep child j a).bind (chainStep child k) := by
  intro j
  induction j with
  | zero => intro k a; simp [chainStep, Nat.zero_add]
  | succ j ih =>
    intro k a
    have hjk : j + 1 + k = (j + k) + 1 := by omega
    rw [hjk]
    simp only [chainStep]
    cases child a with
    | none => simp
    | some c => simp [ih]

theorem iterDescendants_mem (child : Nat → Option Nat) :
    ∀ (fuel pr x : Nat),
      x ∈ iterDescendants child fuel pr
        ↔ ∃ k, 0 < k ∧ k ≤ fuel ∧ chainStep child k pr = some x := by
  intro fuel
  induction fuel with
  | zero =>
    intro pr x
    simp only [iterDescendants, List.not_mem_nil, false_iff, not_exists]
    intro k hk
    omega
  | succ fuel ih =>
    intro pr x
    cases hc : child pr with
    | none =>
      simp only [iterDescendants, hc, List.not_mem_nil, false_iff, not_exists]
      rintro k ⟨hk0, _, hcs⟩
      cases k with
      | zero => omega
      | succ k => simp [chainStep, hc] at hcs
    | some c =>
      simp only [iterDescendants, hc, List.mem_cons, ih]
      constructor
      · rintro (rfl | ⟨k, hk0, hkf, hcs⟩)
        · exact ⟨1, by omega, by omega, by simp [chainStep, hc]⟩
        · exact ⟨k + 1, by omega, by omega, by simp [chainStep, hc, hcs]⟩
      · rintro ⟨k, hk0, hkf, hcs⟩
        cases k with
        | zero => omega
        | succ k =>
          simp only [chainStep, hc] at hcs
          rcases Nat.eq_zero_or_pos k with rfl | hpos
          · left
            simp only [chainStep, Option.some.injEq] at hcs
            exact hcs.symm
          · right
            exact ⟨k, hpos, by omega, hcs⟩

/-- C8: the set queued for status/state recomputation on an override
change is exactly the PR itself plus its transitive forward-port
descendants (any node reachable along child links within the walk's
fuel), and no proper ancestor of the PR: a node from which the PR is
reachable in at least one child step is never in the set, as long as the
child links have no cycle through that node. -/
theorem override_recompute_set (child : Nat → Option Nat) (fuel pr : Nat) :
    (∀ x, x ∈ overridesRecomputeSet child fuel pr
        ↔ x = pr ∨ ∃ k, 0 < k ∧ k ≤ fuel ∧ chainStep child k pr = some x)
      ∧ (∀ a j, 0 < j → chainStep child j a = some pr →
          (∀ m, m ≤ j + fuel → 0 < m → chainStep child m a ≠ some a) →
          a ∉ overridesRecomputeSet child fuel pr) := by
  constructor
  · intro x
    simp only [overridesRecomputeSet, List.mem_cons, iterDescendants_mem]
  · intro a j hj hja hacyc hmem
    rw [overridesRecomputeSet, List.mem_cons, iterDescendants_mem] at hmem
    rcases hmem with rfl | ⟨k, hk0, hkf, hka⟩
    · exact hacyc j (by omega) hj hja
    · have hcomp : chainStep child (j + k) a = some a := by
        rw [chainStep_add]
        simp [hja, hka]
      exact hacyc (j + k) (by omega) (by omega) hcomp

/-- A three-PR forward-port chain 0 → 1 → 2. -/
def childChain : Nat → Option Nat :=
  fun n => if n = 0 then some 1 else if n = 1 then some 2 else none

theorem override_recompute_set_witness :
    0 ∉ overridesRecomputeSet childChain 2 1
      ∧ (2 ∈ overridesRecomputeSet childChain 2 1
          ↔ 2 = 1 ∨ ∃ k, 0 < k ∧ k ≤ 2 ∧ chainStep childChain k 1 = some 2) := by
  obtain ⟨hmem, hanc⟩ := override_recompute_set childChain 2 1
  exact ⟨hanc 0 1 (by decide) (by decide) (by decide), hmem 2⟩

/-- The forward-port policies of `commands.FW`. -/
inductive FwPolicy
  | default
  | skipci
  | skipmerge
deriving DecidableEq, Repr

/-- A queued `runbot_merge.pull_requests.feedback` record as created by
the local `feedback` helper of `_parse_commands` and by template sends. -/
structure Feedback where
  message : Option String
  close : Bool
deriving DecidableEq, Repr

/-- The database state a comment's directives act on, at the granularity
`_parse_commands` reads and writes it: the PR's error flag, reviewer,
merge method and override map, its batch's priority / skipchecks /
cancel-staging / forward-port-policy fields, whether the PR is currently
staged (`unstage`), whether the target's active staging was cancelled,
queued fetch jobs, and the queued feedback records.  The whole record is
one transaction: `env.cr.rollback()` restores all of it at once. -/
structure CmdDb where
  pr_error : Bool
  reviewed_by : Option Nat
  merge_method : Option MergeMethod
  overrides : List (String × Nat)
  batch_priority : Option String
  batch_skipchecks : Bool
  batch_cancel_staging : Bool
  batch_fw_policy : FwPolicy
  staged : Bool
  active_staging_cancelled : Bool
  fetch_jobs : Nat
  feedback : List Feedback
deriving DecidableEq, Repr

/-- The read-only context of one comment: the resolved ACL triple of
lines 637-638 (plus the source-PR ACL used by forward-port directives),
the override grants of the author, and the PR attributes the guards
read.  The PR is not a forward-port copy (`parent_id` unset), so
approval takes the plain reviewer path of line 697. -/
structure CmdCtx where
  login : String
  partner : Nat
  email : Bool
  is_admin : Bool
  is_reviewer : Bool
  is_author : Bool
  source_author : Bool
  source_reviewer : Bool
  overridable : List String
  draft : Bool
  state : PrState
  status : CiAgg
  batch_blocked : Bool
deriving DecidableEq, Repr

/-- The directives of one comment after tokenization, with the commands
covered by this embedding (the `Limit` and `Delegate` directives are not
modelled; `unknownCmd` is any directive reaching the final catch-all). -/
inductive Command
  | approve
  | reject
  | setMethod (m : MergeMethod)
  | retry
  | checkRun
  | setPriority (p : String)
  | skipChecks
  | cancelStaging
  | overrideSt (statuses : List String)
  | closePr
  | fw (p : FwPolicy)
  | unknownCmd (text : String)
deriving DecidableEq, Repr

/-- `RPLUS` (line 1263): the state reached by an approval, defined only
from `opened` and `validated`. -/
def rplus : PrState → Option PrState
  | .opened => some .approved
  | .validated => some .ready
  | _ => none

/-- `PullRequests._approve` (lines 827-851): require a contactable email
and an approvable state, then set `reviewed_by`; when the PR's aggregate
status is `failure` additionally send the `command.approve.failure`
notice. -/
def prApprove (ctx : CmdCtx) (db : CmdDb) : Option String × CmdDb :=
  let newstate := rplus ctx.state
  let (msg, db) :=
    if !ctx.email then
      (some "I must know your email before you can review PRs. Please contact an administrator.", db)
    else if newstate.isNone then
      (some "this PR is already reviewed, reviewing it again is useless.", db)
    else (none, { db with reviewed_by := some ctx.partner })
  if ctx.status == .failure then
    (msg, { db with feedback := db.feedback ++ [⟨some "runbot_merge.command.approve.failure", false⟩] })
  else (msg, db)

/-- The fallback of the `match` (`case _`): the directive is understood
but the caller may not use it. -/
def skillIssue (text : String) : String := "you can not " ++ text ++ ". Skill issue."

/-- One arm of the `match command` statement of `_parse_commands`
(lines 653-807) on a PR without a forward-port parent: returns the
rejection message, if any, and the mutated database state.  A guard that
fails falls through to the catch-all rejection, mutating nothing. -/
def applyCommand (ctx : CmdCtx) (db : CmdDb) : Command → Option String × CmdDb
  | .approve =>
    if ctx.draft then (some "draft PRs can not be approved.", db)
    else if ctx.is_reviewer then prApprove ctx db
    else (some (skillIssue "r+"), db)
  | .reject =>
    if ctx.is_author then
      if db.batch_skipchecks || db.reviewed_by.isSome then
        let db := if db.pr_error then { db with pr_error := false } else db
        let db := if db.reviewed_by.isSome then { db with reviewed_by := none } else db
        let db :=
          if db.batch_skipchecks then
            { db with
              batch_skipchecks := false
              feedback := db.feedback ++ [⟨some "runbot_merge.command.unapprove.p0", false⟩] }
          else db
        (none, { db with staged := false })
      else (some "r- makes no sense in the current PR state.", db)
    else (some (skillIssue "r-"), db)
  | .setMethod m =>
    if ctx.is_reviewer then
      (none, { db with
        merge_method := some m
        feedback := db.feedback ++ [⟨some "runbot_merge.command.method", false⟩] })
    else (some (skillIssue "merge"), db)
  | .retry =>
    if ctx.is_author || ctx.source_author then
      if db.pr_error then (none, { db with pr_error := false })
      else (some "retry makes no sense when the PR is not in error.", db)
    else (some (skillIssue "retry"), db)
  | .checkRun =>
    if ctx.is_author then (none, { db with fetch_jobs := db.fetch_jobs + 1 })
    else (some (skillIssue "check"), db)
  | .setPriority p =>
    if ctx.is_admin then (none, { db with batch_priority := some p })
    else (some (skillIssue "priority"), db)
  | .skipChecks =>
    if ctx.is_admin then
      (none, { db with batch_skipchecks := true, reviewed_by := some ctx.partner })
    else (some (skillIssue "skipchecks"), db)
  | .cancelStaging =>
    if ctx.is_admin then
      let db := { db with batch_cancel_staging := true }
      if !ctx.batch_blocked then (none, { db with active_staging_cancelled := true })
      else (none, db)
    else (some (skillIssue "cancel"), db)
  | .overrideSt statuses =>
    statuses.foldl
      (fun acc st =>
        if ctx.overridable.contains st then
          (acc.1, { acc.2 with
            overrides := acc.2.overrides.filter (fun e => e.1 ≠ st) ++ [(st, ctx.partner)] })
        else (some ("you are not allowed to override " ++ st ++ "."), acc.2))
      (none, db)
  | .closePr =>
    if ctx.source_author then (none, { db with feedback := db.feedback ++ [⟨none, true⟩] })
    else (some (skillIssue "close"), db)
  | .fw p =>
    if ctx.source_reviewer || ctx.is_reviewer then
      let message :=
        match p with
        | .default => "Waiting for CI to create followup forward-ports."
        | .skipci => "Not waiting for CI to create followup forward-ports."
        | .skipmerge => "Not waiting for merge to create followup forward-ports."
      (none, { db with
        batch_fw_policy := p
        feedback := db.feedback ++ [⟨some message, false⟩] })
    else (some "you can not configure forward-port CI.", db)
  | .unknownCmd text => (some (skillIssue text), db)

/-- One pass of the `for command in cmds` loop: apply the directive and
collect its rejection message, if any. -/
def commandStep (ctx : CmdCtx) (acc : CmdDb × List String) (cmd : Command) :
    CmdDb × List String :=
  let (msg, db) := applyCommand ctx acc.1 cmd
  match msg with
  | none => (db, acc.2)
  | some m => (db, acc.2 ++ [m])

/-- The rejection messages collected over one comment's directives. -/
def commentRejections (ctx : CmdCtx) (db0 : CmdDb) (cmds : List Command) :
    List String :=
  (cmds.foldl (commandStep ctx) (db0, [])).2

/-- The consolidated rejection message of lines 814-823:
`@login` followed by the single rejection inline, or by the bulleted
rejection list plus the safety footer when some directives were fine. -/
def consolidatedMessage (login : String) (ncmds : Nat) (rejections : List String) :
    String :=
  let rejections_list := String.join (rejections.map fun r => "\n- " ++ r)
  let footer :=
    if ncmds == rejections.length then ""
    else "\n\nFor your own safety I have ignored everything in your comment."
  let body :=
    if rejections.length == 1 then " " ++ rejections.headD "" else rejections_list
  "@" ++ login ++ body ++ footer

/-- `PullRequests._parse_commands` (lines 651-825) from the resolved
directive list on: run every directive, collecting rejections; with no
rejection the mutated state is committed (result flag `true`, `applied`);
otherwise `env.cr.rollback()` restores the state from the start of the
comment's transaction and a single consolidated rejection feedback record
is created (result flag `false`, `rejected`). -/
def processCommands (ctx : CmdCtx) (db0 : CmdDb) (cmds : List Command) :
    CmdDb × Bool :=
  let res := cmds.foldl (commandStep ctx) (db0, [])
  if res.2.isEmpty then (res.1, true)
  else
    ({ db0 with
       feedback := db0.feedback ++
         [⟨some (consolidatedMessage ctx.login cmds.length res.2), false⟩] },
     false)

/-- C5: if any directive of a comment is rejected, no side effect of any
directive of that comment survives — the result state is exactly the
pre-comment state with one consolidated rejection feedback record
appended (every other field unchanged, and exactly one message enqueued)
— and the comment is reported rejected; a comment whose directives are
all accepted is committed as the loop left it and acknowledged. -/
theorem command_all_or_nothing (ctx : CmdCtx) (db0 : CmdDb) (cmds : List Command) :
    (commentRejections ctx db0 cmds ≠ [] →
        processCommands ctx db0 cmds
          = ({ db0 with
               feedback := db0.feedback ++
                 [⟨some (consolidatedMessage ctx.login cmds.length
                     (commentRejections ctx db0 cmds)), false⟩] },
             false))
      ∧ (commentRejections ctx db0 cmds = [] →
          processCommands ctx db0 cmds
            = ((cmds.foldl (commandStep ctx) (db0, [])).1, true)) := by
  constructor
  · intro h
    simp [processCommands, commentRejections, List.isEmpty_iff] at h ⊢
    intro h'
    exact absurd h' h
  · intro h
    simp [processCommands, commentRejections, List.isEmpty_iff] at h ⊢
    simp [h]

/-- A reviewer (who is not an admin) on an open, non-draft PR. -/
def ctxReviewer : CmdCtx :=
  { login := "rev"
    partner := 42
    email := true
    is_admin := false
    is_reviewer := true
    is_author := true
    source_author := false
    source_reviewer := false
    overridable := []
    draft := false
    state := .opened
    status := .pending
    batch_blocked := false }

/-- A pre-comment database state with no side effect applied yet. -/
def dbClean : CmdDb :=
  { pr_error := false
    reviewed_by := none
    merge_method := none
    overrides := []
    batch_priority := none
    batch_skipchecks := false
    batch_cancel_staging := false
    batch_fw_policy := .default
    staged := false
    active_staging_cancelled := false
    fetch_jobs := 0
    feedback := [] }

theorem command_all_or_nothing_witness :
    processCommands ctxReviewer dbClean [.approve, .setPriority "alone"]
      = ({ dbClean with
           feedback := [⟨some (consolidatedMessage "rev" 2
             (commentRejections ctxReviewer dbClean [.approve, .setPriority "alone"])),
             false⟩] },
         false) :=
  (command_all_or_nothing ctxReviewer dbClean [.approve, .setPriority "alone"]).1
    (by decide)
